import Mathlib

/-
Verification of the jshell pipeline engine (src/jshell.c) against its
natural-language specification.  The C program is shallowly embedded:
each C function of interest becomes a Lean function over `List String`
(the NULL-terminated `char **words` arrays), the filesystem and the
spawned processes are abstracted as oracles, and the observable effects
of one command line (error messages, builtin dispatch, launches, the
single waitpid and the final report) are captured by explicit result
types.
-/

namespace Jsh

/-- Models `strrchr(s, c) != NULL`: does the string contain the character? -/
def contains_char (s : String) (c : Char) : Bool :=
  s.toList.contains c

/-- Abstract filesystem, giving the three queries the C code makes about a
path: `present` is `access(path, F_OK) == 0` (and stat success),
`regular` is `S_ISREG(st_mode)`, and `execOk` is
`faccessat(AT_FDCWD, path, X_OK, AT_EACCESS) == 0`. -/
structure Fs where
  present : String → Bool
  regular : String → Bool
  execOk : String → Bool

/-- Embeds `is_executable` (jshell.c:762-771): the file exists, is a regular
file, and is executable by this process. -/
def is_executable (fs : Fs) (p : String) : Bool :=
  fs.present p && fs.regular p && fs.execOk p

/-- Embeds `get_full_path` (jshell.c:534-547): walk the path directories in
order and return `dir ++ "/" ++ program` for the first directory where the
file merely exists (`access(F_OK)`); `none` models the `return 0` after the
`command not found` message naming `program`.  Note the C loop does not
check executability here. -/
def get_full_path (fs : Fs) (path : List String) (program : String) : Option String :=
  (path.find? (fun d => fs.present (d ++ "/" ++ program))).map
    (fun d => d ++ "/" ++ program)

/-- Embeds `num_pipes` (jshell.c:466-474): the number of `"|"` words. -/
def num_pipes : List String → Nat
  | [] => 0
  | w :: rest => (if w = "|" then 1 else 0) + num_pipes rest

/-- The scanning loop of `valid_pipe` (jshell.c:713-730).  `L` is the word
count (int in C, so positions are compared as integers), `i` the current
index and `prev` the `prev_pipe` flag; `false` models `return 0`. -/
def valid_pipe_go (L : Int) : List String → Int → Bool → Bool
  | [], _, _ => true
  | w :: rest, i, prev =>
    if w = ">" ∧ i ≠ L - 2 ∧ i ≠ L - 3 then false
    else if w = "<" ∧ i ≠ 0 then false
    else if w = "|" then
      (if prev then false else valid_pipe_go L rest (i + 1) true)
    else valid_pipe_go L rest (i + 1) false

/-- Embeds `valid_pipe` (jshell.c:706-736): the first word must not be a
pipe, the scan must not find a misplaced `>` (legal only at positions
`length-2` / `length-3`), a `<` anywhere but index 0, or two adjacent
pipes, and the final word must not be a pipe.  The `[]` case is
unreachable in the C (the caller guarantees `words[0] != NULL`). -/
def valid_pipe (ws : List String) : Bool :=
  match ws with
  | [] => true
  | w0 :: _ =>
    if w0 = "|" then false
    else if ws.getLast? = some "|" then false
    else valid_pipe_go (ws.length : Int) ws 0 false

/-- Embeds `split_words` + the `next_pipe` iteration (jshell.c:480-501):
the word list is cut at every `"|"`, yielding one word list per stage. -/
def split_stages : List String → List (List String)
  | [] => [[]]
  | w :: rest =>
    if w = "|" then [] :: split_stages rest
    else
      match split_stages rest with
      | s :: ss => (w :: s) :: ss
      | [] => [[w]]

/-- Output-redirection mode, the `NONE` / `STORE` / `APPEND` defines of the
C source; `store` opens the file with mode `"w"` (truncate), `append`
with `"a"`. -/
inductive RMode where
  | noRedir
  | store
  | append
deriving DecidableEq

/-- Embeds `setup_redirect_output` (jshell.c:420-437).  If the second-to-last
word is `">"`, mark `STORE` and null that slot, cutting the argument
vector before the `">"` (the filename after it stays in the underlying
line for the parent's funneling but leaves the argv); if the word at
position `length-3` is then also `">"`, null it too and mark `APPEND`. -/
def setup_redirect_output (sw : List String) : RMode × List String :=
  if sw.length > 2 ∧ sw.getD (sw.length - 2) "" = ">" then
    if sw.length > 3 ∧ sw.getD (sw.length - 3) "" = ">" then
      (RMode.append, sw.take (sw.length - 3))
    else (RMode.store, sw.take (sw.length - 2))
  else (RMode.noRedir, sw)

/-- Embeds `setup_redirect_input` (jshell.c:445-463): when the stage has
more than two words and its first word carries `<`, record the input file
(`words[1]`) and return `&words[2]`; otherwise the stage is unchanged. -/
def setup_redirect_input (sw : List String) : Option String × List String :=
  if sw.length > 2 ∧ contains_char (sw.headD "") '<' then
    (some (sw.getD 1 ""), sw.drop 2)
  else (none, sw)

/-- The argument vector stage `i` of a pipeline with `pn` pipes is spawned
with: input stripping applies only to stage 0, output stripping only to
stage `pn` (jshell.c:269-278). -/
def stage_argv (pn i : Nat) (sw : List String) : List String :=
  let sw1 := if i = 0 then (setup_redirect_input sw).2 else sw
  if i = pn then (setup_redirect_output sw1).2 else sw1

/-- One `posix_spawn` call: the resolved program path and the argument
vector handed to it. -/
structure Launch where
  path : String
  argv : List String
deriving DecidableEq

/-- Observable result of `execute_external` (jshell.c:232-347).
`invalidPipe` is the `invalid pipe` message with nothing started;
`commandNotFound pipes launched name` is the `command not found` message
naming `name` followed by `return` (connecting pipes already created,
`launched` stages already spawned, no wait and no report);
`finished pipes launched waited reportedPath reportedStatus` records the
number of connecting pipes created in `pipe_array`, every spawn in order,
the single `waitpid` on the handle of stage `waited`, and the final
`"%s exit status = %d"` report.  `stageEmpty` marks the states where the
C would dereference a NULL `words[0]` (unreachable for validated input). -/
inductive ExtResult where
  | invalidPipe
  | stageEmpty
  | commandNotFound (pipes : Nat) (launched : List Launch) (name : String)
  | finished (pipes : Nat) (launched : List Launch) (waited : Nat)
      (reportedPath : String) (reportedStatus : Nat)
deriving DecidableEq

/-- The per-stage loop of `execute_external` (jshell.c:261-334) followed by
the final wait and report (jshell.c:336-346).  `status` is the oracle
giving `WEXITSTATUS` of the `waitpid` on the handle of a given stage
index; the C waits once, on `child`, which after the loop is the pid of
the last spawned stage.  A resolution or executability failure returns
immediately: stages of `rest` are never examined. -/
def run_stages (fs : Fs) (path : List String) (status : Nat → Nat) (pn : Nat) :
    List (List String) → Nat → List Launch → ExtResult
  | [], _i, acc =>
    match acc.getLast? with
    | some l => ExtResult.finished pn acc (acc.length - 1) l.path (status (acc.length - 1))
    | none => ExtResult.stageEmpty
  | sw :: rest, i, acc =>
    match (stage_argv pn i sw).head? with
    | none => ExtResult.stageEmpty
    | some prog =>
      match (if contains_char prog '/' then some prog else get_full_path fs path prog) with
      | none => ExtResult.commandNotFound pn acc prog
      | some fp =>
        if is_executable fs fp then
          run_stages fs path status pn rest (i + 1) (acc ++ [⟨fp, stage_argv pn i sw⟩])
        else ExtResult.commandNotFound pn acc fp

/-- Embeds `execute_external` (jshell.c:232-347): reject invalid pipes
before anything is created, otherwise allocate `num_pipes` connecting
pipes, split the line into stages and run them.  (The `waitpid` failure
branch, which only perrors, is not modelled: `status` is total.) -/
def execute_external (fs : Fs) (path : List String) (status : Nat → Nat)
    (ws : List String) : ExtResult :=
  if valid_pipe ws then
    run_stages fs path status (num_pipes ws) (split_stages ws) 0 []
  else ExtResult.invalidPipe

/-- The wildcard test of `glob_words` (jshell.c:643-644): the word contains
one of the four metacharacters. -/
def has_metachar (w : String) : Bool :=
  contains_char w '*' || contains_char w '?' ||
  contains_char w '[' || contains_char w '~'

/-- Models the `glob(3)` call with `GLOB_NOCHECK|GLOB_TILDE` (jshell.c:649):
`gm` is the oracle giving the sorted filesystem matches of a pattern, and
with `GLOB_NOCHECK` a pattern that matches nothing yields the pattern
itself as the single result. -/
def glob_nocheck (gm : String → List String) (w : String) : List String :=
  if gm w = [] then [w] else gm w

/-- The scanning loop of `glob_words` (jshell.c:642-672) from the current
position: a word with a metacharacter is replaced in place by its glob
results and the scan resumes after the first of them (`i++` on the
rebuilt array), otherwise the scan moves on.  `fuel` bounds the number of
loop iterations (the C has no such bound; every theorem below holds for
every fuel, and exhausted fuel leaves the remaining words unchanged). -/
def glob_go (gm : String → List String) : Nat → List String → List String
  | 0, rest => rest
  | _ + 1, [] => []
  | fuel + 1, w :: rest =>
    if has_metachar w then
      match glob_nocheck gm w with
      | [] => glob_go gm fuel rest
      | g0 :: gtail => g0 :: glob_go gm fuel (gtail ++ rest)
    else w :: glob_go gm fuel rest

/-- Embeds `glob_words` (jshell.c:639-674): the scan starts at index 1, so
the word at index 0 is never examined. -/
def glob_words (gm : String → List String) (fuel : Nat) : List String → List String
  | [] => []
  | w0 :: rest => w0 :: glob_go gm fuel rest

/-- The five builtin command names dispatched by `execute_command`. -/
def builtins : List String := ["cd", "pwd", "exit", "history", "!"]

/-- The `program` resolution of `execute_command` (jshell.c:167-175): the
first word unless it carries `<`, in which case `words[2]` when the line
has more than two words; `none` models `program` staying NULL. -/
def program_of (ws : List String) : Option String :=
  match ws with
  | [] => none
  | w0 :: _ =>
    if contains_char w0 '<' = false then some w0
    else if ws.length > 2 then some (ws.getD 2 "")
    else none

/-- The `is_redirect` flag of `execute_command` (jshell.c:160-183): set when
the first word carries `<` on a line of more than two words, when the
second-to-last word of a line of more than two words is `">"`, or when
the line contains any pipe token. -/
def is_redirect (ws : List String) : Bool :=
  match ws with
  | [] => false
  | w0 :: _ =>
    (contains_char w0 '<' && decide (ws.length > 2))
    || (decide (ws.length > 2) && decide (ws.getD (ws.length - 2) "" = ">"))
    || decide (num_pipes ws ≠ 0)

/-- Observable result of `execute_command` (jshell.c:154-225) for one line.
`nothing` is the empty-line early return; `nullProgram` marks the lines
on which `program` is still NULL when `strcmp(program, "history")` runs
(undefined behaviour, a crash in practice); `redirectError p` is the
`no_redirect` message naming `p` with the builtin not executed;
`historyPrint`, `historyExec`, `didExit`, `didCd`, `didPwd` are the five
builtin actions; `ranExternal r` hands the (glob-expanded) line to
`execute_external`.  The history-file appends of `store_command` are not
modelled. -/
inductive Outcome where
  | nothing
  | nullProgram
  | redirectError (program : String)
  | historyPrint
  | historyExec
  | didExit
  | didCd
  | didPwd
  | ranExternal (r : ExtResult)
deriving DecidableEq

/-- Embeds `execute_command` (jshell.c:154-225): resolve `program` and the
`is_redirect` flag, dispatch `history` and `!` first, then glob-expand the
line, dispatch `exit`, `cd`, `pwd`, and otherwise run the line as an
external pipeline.  Builtins with `is_redirect` set produce only the
`no_redirect` message. -/
def execute_command (fs : Fs) (path : List String) (status : Nat → Nat)
    (gm : String → List String) (fuel : Nat) (ws : List String) : Outcome :=
  match ws with
  | [] => Outcome.nothing
  | _ :: _ =>
    match program_of ws with
    | none => Outcome.nullProgram
    | some prog =>
      let r := is_redirect ws
      if prog = "history" then
        (if r then Outcome.redirectError prog else Outcome.historyPrint)
      else if prog = "!" then
        (if r then Outcome.redirectError prog else Outcome.historyExec)
      else
        let ws2 := glob_words gm fuel ws
        if prog = "exit" then
          (if r then Outcome.redirectError prog else Outcome.didExit)
        else if prog = "cd" then
          (if r then Outcome.redirectError prog else Outcome.didCd)
        else if prog = "pwd" then
          (if r then Outcome.redirectError prog else Outcome.didPwd)
        else Outcome.ranExternal (execute_external fs path status ws2)

/-- `WORD_SEPARATORS` of jshell.c. -/
def wordSeparators : List Char := [' ', '\t', '\r', '\n']

/-- `SPECIAL_CHARS` of jshell.c: characters always returned as single words. -/
def specialChars : List Char := ['!', '>', '<', '|']

/-- Embeds the loop of `tokenize` (jshell.c:786-815): skip separators, then
take `strcspn(s, separators)` characters, shortened to
`strcspn(s, special_chars)` (with zero bumped to one so a special
character is a one-character word).  `fuel` bounds the iterations; each
iteration consumes at least one character, so `length + 1` always
suffices. -/
def tokenize_go (sep special : List Char) : Nat → List Char → List (List Char)
  | 0, _ => []
  | fuel + 1, s =>
    let s1 := s.dropWhile (fun c => sep.contains c)
    match s1 with
    | [] => []
    | _ :: _ =>
      let tl0 := (s1.takeWhile (fun c => !sep.contains c)).length
      let tl1 := (s1.takeWhile (fun c => !special.contains c)).length
      let tl2 := if tl1 = 0 then 1 else tl1
      let tl := if tl2 < tl0 then tl2 else tl0
      s1.take tl :: tokenize_go sep special fuel (s1.drop tl)

/-- Embeds `tokenize` (jshell.c:780-822) on a whole input string. -/
def tokenize (sep special : List Char) (s : String) : List String :=
  (tokenize_go sep special (s.toList.length + 1) s.toList).map (fun cs => String.mk cs)

/-- The resolution rule exactly as claim C4 words it: the first `search_path`
entry in which a regular, executable file of the name exists.  Declared
only to compare the claim with `get_full_path`, which tests existence
alone. -/
def resolve_spec (fs : Fs) (path : List String) (program : String) : Option String :=
  (path.find? (fun d => is_executable fs (d ++ "/" ++ program))).map
    (fun d => d ++ "/" ++ program)

/-- A filesystem with no files at all, for concrete witnesses. -/
def fs0 : Fs := ⟨fun _ => false, fun _ => false, fun _ => false⟩

/-- A filesystem holding exactly the executables `/bin/a` and `/bin/b`. -/
def fsBin : Fs :=
  ⟨fun p => p == "/bin/a" || p == "/bin/b",
   fun p => p == "/bin/a" || p == "/bin/b",
   fun p => p == "/bin/a" || p == "/bin/b"⟩

/-- A filesystem where `/d1/p` exists but is not executable while `/d2/p`
is a regular executable file, for the claim C4 counterexample. -/
def fs4 : Fs :=
  ⟨fun p => p == "/d1/p" || p == "/d2/p",
   fun p => p == "/d1/p" || p == "/d2/p",
   fun p => p == "/d2/p"⟩

/-- Exit-status oracle that reports 0 for every stage. -/
def st0 : Nat → Nat := fun _ => 0

/-- Glob oracle of an empty filesystem: no pattern matches anything. -/
def gm0 : String → List String := fun _ => []

/-! ### Helper lemmas -/

lemma glob_go_nil (gm : String → List String) (fuel : Nat) :
    glob_go gm fuel [] = [] := by
  cases fuel <;> rfl

/-- When every metacharacter word in `l` matches no path, the scanning loop
leaves `l` unchanged: `GLOB_NOCHECK` puts the literal pattern back in
place and the scan moves past it. -/
lemma glob_go_unmatched (gm : String → List String) :
    ∀ (fuel : Nat) (l : List String),
      (∀ w ∈ l, has_metachar w = true → gm w = []) →
      glob_go gm fuel l = l := by
  intro fuel
  induction fuel with
  | zero => intro l _; rfl
  | succ fuel ih =>
    intro l h
    cases l with
    | nil => rfl
    | cons w rest =>
      by_cases hm : has_metachar w = true
      · have hw : gm w = [] := h w (List.mem_cons_self w rest) hm
        simp only [glob_go, hm, if_pos, glob_nocheck, hw, if_true]
        simp only [List.nil_append]
        rw [ih rest (fun x hx => h x (List.mem_cons_of_mem w hx))]
      · simp only [glob_go, hm]
        rw [if_neg (by simp [hm]), ih rest (fun x hx => h x (List.mem_cons_of_mem w hx))]

lemma split_stages_length (ws : List String) :
    (split_stages ws).length = num_pipes ws + 1 := by
  induction ws with
  | nil => rfl
  | cons w rest ih =>
    by_cases hw : w = "|"
    · simp only [split_stages, num_pipes, hw, ite_true, List.length_cons, ih]
      omega
    · simp only [split_stages, num_pipes, hw, if_neg, ite_false]
      cases hsp : split_stages rest with
      | nil => rw [hsp] at ih; simp at ih
      | cons s ss =>
        rw [hsp] at ih
        simpa using ih

/-- Inversion for a completed pipeline run: the reported data all comes
from the last launched stage. -/
lemma run_stages_finished (fs : Fs) (path : List String) (status : Nat → Nat) (pn : Nat) :
    ∀ (stages : List (List String)) (i : Nat) (acc : List Launch)
      (p : Nat) (l : List Launch) (w : Nat) (rp : String) (rs : Nat),
      run_stages fs path status pn stages i acc = ExtResult.finished p l w rp rs →
      p = pn ∧ l.length = acc.length + stages.length ∧ w = l.length - 1 ∧
        rs = status (l.length - 1) ∧ (∃ a, l.getLast? = some ⟨rp, a⟩) := by
  intro stages
  induction stages with
  | nil =>
    intro i acc p l w rp rs h
    cases hlast : acc.getLast? with
    | none => simp [run_stages, hlast] at h
    | some l0 =>
      simp only [run_stages, hlast] at h
      obtain ⟨hp, hl, hw, hrp, hrs⟩ := ExtResult.finished.inj h
      subst hp hl hw hrp hrs
      exact ⟨rfl, by simp, rfl, rfl, ⟨l0.argv, by simpa using hlast⟩⟩
  | cons sw rest ih =>
    intro i acc p l w rp rs h
    simp only [run_stages] at h
    cases hhd : (stage_argv pn i sw).head? with
    | none => simp only [hhd] at h; simp at h
    | some prog =>
      simp only [hhd] at h
      cases hres : (if contains_char prog '/' then some prog else get_full_path fs path prog) with
      | none => simp only [hres] at h; simp at h
      | some fp =>
        simp only [hres] at h
        by_cases hex : is_executable fs fp = true
        · rw [if_pos hex] at h
          obtain ⟨hp, hl, hw, hrs, hrp⟩ := ih (i + 1) (acc ++ [⟨fp, stage_argv pn i sw⟩]) p l w rp rs h
          refine ⟨hp, ?_, hw, hrs, hrp⟩
          simp at hl
          simp [hl]
          omega
        · rw [if_neg hex] at h; simp at h

/-- A completed pipeline run depends on the exit-status oracle only at the
index of the stage it waits on: earlier stages' statuses are never read. -/
lemma run_stages_status_frame (fs : Fs) (path : List String)
    (status status' : Nat → Nat) (pn : Nat) :
    ∀ (stages : List (List String)) (i : Nat) (acc : List Launch)
      (p : Nat) (l : List Launch) (w : Nat) (rp : String) (rs : Nat),
      run_stages fs path status pn stages i acc = ExtResult.finished p l w rp rs →
      status' w = status w →
      run_stages fs path status' pn stages i acc = ExtResult.finished p l w rp rs := by
  intro stages
  induction stages with
  | nil =>
    intro i acc p l w rp rs h hst
    cases hlast : acc.getLast? with
    | none => simp [run_stages, hlast] at h
    | some l0 =>
      simp only [run_stages, hlast] at h ⊢
      obtain ⟨hp, hl, hw, hrp, hrs⟩ := ExtResult.finished.inj h
      subst hp hl hw hrp hrs
      rw [hst]
  | cons sw rest ih =>
    intro i acc p l w rp rs h hst
    simp only [run_stages] at h ⊢
    cases hhd : (stage_argv pn i sw).head? with
    | none => simp only [hhd] at h; simp at h
    | some prog =>
      simp only [hhd] at h ⊢
      cases hres : (if contains_char prog '/' then some prog else get_full_path fs path prog) with
      | none => simp only [hres] at h; simp at h
      | some fp =>
        simp only [hres] at h ⊢
        by_cases hex : is_executable fs fp = true
        · rw [if_pos hex] at h ⊢
          exact ih _ _ _ _ _ _ _ h hst
        · rw [if_neg hex] at h; simp at h

/-- The scan of `valid_pipe` rejects any word list holding two adjacent
pipe tokens, whatever the starting index and `prev_pipe` flag. -/
lemma valid_pipe_go_adjacent (L : Int) :
    ∀ (pre post : List String) (i : Int) (prev : Bool),
      valid_pipe_go L (pre ++ "|" :: "|" :: post) i prev = false := by
  intro pre
  induction pre with
  | nil =>
    intro post i prev
    cases prev <;> simp [valid_pipe_go]
  | cons w pre ih =>
    intro post i prev
    simp only [List.cons_append, valid_pipe_go]
    split
    · rfl
    · split
      · rfl
      · split
        · split
          · rfl
          · exact ih post (i + 1) true
        · exact ih post (i + 1) false

/-- `List.find?` returns the first element past a prefix of failures. -/
lemma find?_first_present {α : Type} (p : α → Bool) :
    ∀ (pre : List α) (d : α) (post : List α),
      (∀ e ∈ pre, p e = false) → p d = true →
      List.find? p (pre ++ d :: post) = some d := by
  intro pre
  induction pre with
  | nil =>
    intro d post _ hd
    simp [List.find?_cons_of_pos, hd]
  | cons e pre ih =>
    intro d post hpre hd
    have he : p e = false := hpre e (List.mem_cons_self e pre)
    rw [List.cons_append, List.find?_cons_of_neg _ (by simp [he])]
    exact ih d post (fun x hx => hpre x (List.mem_cons_of_mem e hx)) hd

/-- Any builtin on a line with the redirect flag set is refused with the
`no_redirect` message and is not executed. -/
lemma builtin_redirect (fs : Fs) (path : List String) (status : Nat → Nat)
    (gm : String → List String) (fuel : Nat) (ws : List String) (prog : String)
    (hp : program_of ws = some prog) (hb : prog ∈ builtins)
    (hr : is_redirect ws = true) :
    execute_command fs path status gm fuel ws = Outcome.redirectError prog := by
  have hne : ws ≠ [] := by
    intro h; rw [h] at hp; simp [program_of] at hp
  cases ws with
  | nil => exact absurd rfl hne
  | cons w0 rest =>
    simp only [builtins, List.mem_cons, List.mem_singleton] at hb
    rcases hb with rfl | rfl | rfl | rfl | rfl | h
    all_goals try (exact absurd h (by simp))
    all_goals simp [execute_command, hp, hr]

/-! ### Claims -/

/-- C2: a word list that starts with a pipe token, ends with a pipe token,
or contains two adjacent pipe tokens is rejected by `valid_pipe`, and
`execute_external` then reports an invalid pipe with zero processes
started (the `invalidPipe` result is produced before any pipe is created
or any stage launched). -/
theorem claim_C2 (ws : List String)
    (h : ws.head? = some "|" ∨ ws.getLast? = some "|" ∨
         ∃ pre post, ws = pre ++ "|" :: "|" :: post) :
    valid_pipe ws = false ∧
    ∀ (fs : Fs) (path : List String) (status : Nat → Nat),
      execute_external fs path status ws = ExtResult.invalidPipe := by
  have hvp : valid_pipe ws = false := by
    rcases h with h | h | h
    · cases ws with
      | nil => simp at h
      | cons w0 rest =>
        simp only [List.head?_cons, Option.some.injEq] at h
        simp [valid_pipe, h]
    · cases ws with
      | nil => simp at h
      | cons w0 rest =>
        by_cases h0 : w0 = "|"
        · simp [valid_pipe, h0]
        · simp [valid_pipe, h0, h]
    · obtain ⟨pre, post, rfl⟩ := h
      cases pre with
      | nil => simp [valid_pipe]
      | cons p pre =>
        by_cases h0 : p = "|"
        · simp [valid_pipe, h0]
        · by_cases hl : ((p :: pre) ++ "|" :: "|" :: post).getLast? = some "|"
          · simp only [List.cons_append] at hl ⊢
            simp [valid_pipe, h0, hl]
          · simp only [List.cons_append] at hl ⊢
            simp only [valid_pipe, h0, hl, if_false, ite_false, if_neg]
            have := valid_pipe_go_adjacent
              ((p :: (pre ++ "|" :: "|" :: post)).length : Int)
              (p :: pre) post 0 false
            simpa using this
  refine ⟨hvp, fun fs path status => ?_⟩
  simp [execute_external, hvp]

/-- Witness for C2 at the concrete line `a | | b`. -/
theorem claim_C2_witness :
    valid_pipe ["a", "|", "|", "b"] = false ∧
    execute_external fs0 [] st0 ["a", "|", "|", "b"] = ExtResult.invalidPipe := by
  have h := claim_C2 ["a", "|", "|", "b"]
    (Or.inr (Or.inr ⟨["a"], ["b"], rfl⟩))
  exact ⟨h.1, h.2 fs0 [] st0⟩

/-- C3: on a last stage whose second-to-last word is `">"`, the resolver
marks mode `STORE` (truncate) and cuts the `">"` and the filename out of
the argument vector; when the word at position `length-3` — the new
second-to-last word of the stage once the first `">"` is removed, the
filename staying last — is also `">"`, it instead marks `APPEND` and cuts
that token too.  Hence `cmd > file` truncates and `cmd > > file`
appends. -/
theorem claim_C3 (sw : List String) (h2 : sw.length > 2)
    (hgt : sw.getD (sw.length - 2) "" = ">") :
    ((sw.length > 3 ∧ sw.getD (sw.length - 3) "" = ">") →
        setup_redirect_output sw = (RMode.append, sw.take (sw.length - 3))) ∧
    (¬(sw.length > 3 ∧ sw.getD (sw.length - 3) "" = ">") →
        setup_redirect_output sw = (RMode.store, sw.take (sw.length - 2))) ∧
    (∀ c f, setup_redirect_output [c, ">", f] = (RMode.store, [c])) ∧
    (∀ c f, setup_redirect_output [c, ">", ">", f] = (RMode.append, [c])) := by
  refine ⟨?_, ?_, ?_, ?_⟩
  · intro hap
    unfold setup_redirect_output
    rw [if_pos ⟨h2, hgt⟩, if_pos hap]
  · intro hap
    unfold setup_redirect_output
    rw [if_pos ⟨h2, hgt⟩, if_neg hap]
  · intro c f
    simp [setup_redirect_output, List.getD]
  · intro c f
    simp [setup_redirect_output, List.getD]

/-- Witness for C3 at the concrete stage `wc > out`. -/
theorem claim_C3_witness :
    (["wc", ">", "out"] : List String).length > 2 ∧
    (["wc", ">", "out"] : List String).getD ((["wc", ">", "out"] : List String).length - 2) "" = ">" ∧
    setup_redirect_output ["wc", ">", "out"] = (RMode.store, ["wc"]) := by
  refine ⟨by decide, by decide, ?_⟩
  exact (claim_C3 ["wc", ">", "out"] (by decide) (by decide)).2.1 (by decide)

/-- C7: glob expansion of a line none of whose argument words matches any
filesystem path leaves the line exactly as it was: each literal pattern
is kept as a single word in its place (never dropped, never an error) and
all surrounding words are preserved in order.  Holds for every iteration
bound. -/
theorem claim_C7 (gm : String → List String) (fuel : Nat) (ws : List String)
    (h : ∀ w ∈ ws.tail, has_metachar w = true → gm w = []) :
    glob_words gm fuel ws = ws := by
  cases ws with
  | nil => rfl
  | cons w0 rest =>
    simp only [glob_words, List.cons.injEq, true_and]
    exact glob_go_unmatched gm fuel rest (by simpa using h)

/-- Witness for C7 on `ls *.nonexistent` over the empty filesystem. -/
theorem claim_C7_witness :
    (∀ w ∈ (["ls", "*.nonexistent"] : List String).tail,
        has_metachar w = true → gm0 w = []) ∧
    glob_words gm0 3 ["ls", "*.nonexistent"] = ["ls", "*.nonexistent"] := by
  refine ⟨fun w _ _ => rfl, claim_C7 gm0 3 ["ls", "*.nonexistent"] (fun w _ _ => rfl)⟩

/-- C9: the glob scan starts at index 1, so the word at index 0 (the
program name) survives expansion unchanged; in particular a line whose
only word is a glob pattern is never expanded at all, whatever the match
oracle returns. -/
theorem claim_C9 (gm : String → List String) (fuel : Nat) (w : String)
    (rest : List String) :
    (glob_words gm fuel (w :: rest)).head? = some w ∧
    glob_words gm fuel [w] = [w] := by
  constructor
  · simp [glob_words]
  · simp [glob_words, glob_go_nil]

/-- C8 (corrected): the line `cat < nonexistent.txt` tokenizes with `<` at
index 1, which `valid_pipe` rejects — the shell prints `invalid pipe`
and returns before any file open or spawn is attempted, so no `IOError`
is ever reported for this line (and no process is started, hence no
hang). -/
theorem claim_C8 (fs : Fs) (path : List String) (status : Nat → Nat)
    (gm : String → List String) (fuel : Nat) :
    execute_command fs path status gm fuel ["cat", "<", "nonexistent.txt"] =
      Outcome.ranExternal ExtResult.invalidPipe := by
  have hg : glob_words gm fuel ["cat", "<", "nonexistent.txt"] =
      ["cat", "<", "nonexistent.txt"] := by
    simp only [glob_words, List.cons.injEq, true_and]
    refine glob_go_unmatched gm fuel _ ?_
    intro w hw hm
    simp only [List.mem_cons, List.not_mem_nil, or_false] at hw
    rcases hw with rfl | rfl <;> exact absurd hm (by decide)
  have h1 : execute_command fs path status gm fuel ["cat", "<", "nonexistent.txt"] =
      Outcome.ranExternal (execute_external fs path status
        (glob_words gm fuel ["cat", "<", "nonexistent.txt"])) := rfl
  rw [h1, hg]
  rfl

/-- Counterexample for C8 as stated: from the raw input line, tokenization
puts `<` at index 1 and the line is rejected as an invalid pipeline, not
reported as an `IOError` from a failed file open. -/
theorem claim_C8_counterexample :
    tokenize wordSeparators specialChars "cat < nonexistent.txt" =
      ["cat", "<", "nonexistent.txt"] ∧
    valid_pipe ["cat", "<", "nonexistent.txt"] = false ∧
    execute_command fs0 [] st0 gm0 0 ["cat", "<", "nonexistent.txt"] =
      Outcome.ranExternal ExtResult.invalidPipe := by
  exact ⟨by decide, by decide, by decide⟩

/-- C5: a line whose resolved program name is one of the five builtins and
on which the redirect flag is set (input marker on the first word, `">"`
before the last word, or any pipe) produces only the
`I/O redirection not permitted` message naming the builtin: the builtin
is not executed and the line never reaches `execute_external`, the only
path on which an output file could be created — so for `cd foo > out`
the file `out` is never created. -/
theorem claim_C5 (fs : Fs) (path : List String) (status : Nat → Nat)
    (gm : String → List String) (fuel : Nat) (ws : List String) (prog : String)
    (hp : program_of ws = some prog) (hb : prog ∈ builtins)
    (hr : is_redirect ws = true) :
    execute_command fs path status gm fuel ws = Outcome.redirectError prog ∧
    ∀ r, execute_command fs path status gm fuel ws ≠ Outcome.ranExternal r := by
  have h := builtin_redirect fs path status gm fuel ws prog hp hb hr
  refine ⟨h, fun r hcon => ?_⟩
  rw [h] at hcon
  exact Outcome.noConfusion hcon

/-- Witness for C5 at the concrete line `cd foo > out`. -/
theorem claim_C5_witness :
    program_of ["cd", "foo", ">", "out"] = some "cd" ∧
    is_redirect ["cd", "foo", ">", "out"] = true ∧
    execute_command fs0 [] st0 gm0 0 ["cd", "foo", ">", "out"] =
      Outcome.redirectError "cd" := by
  refine ⟨by decide, by decide, ?_⟩
  exact (claim_C5 fs0 [] st0 gm0 0 ["cd", "foo", ">", "out"] "cd"
    (by decide) (by decide) (by decide)).1

/-- C6 (corrected): what runs before builtin dispatch is the pipe count
(`num_pipes`), not pipeline validation — a line containing any pipe token
whose program resolves to a builtin is rejected before the builtin runs,
but with the `RedirectionNotPermitted` message naming the builtin, never
with the `invalid pipe` message; `valid_pipe` itself runs only inside
`execute_external`, where it does precede every pipe creation and
launch. -/
theorem claim_C6 (fs : Fs) (path : List String) (status : Nat → Nat)
    (gm : String → List String) (fuel : Nat) (ws : List String) (prog : String)
    (hp : program_of ws = some prog) (hb : prog ∈ builtins)
    (hpipe : num_pipes ws ≠ 0) :
    execute_command fs path status gm fuel ws = Outcome.redirectError prog ∧
    ∀ ws2, valid_pipe ws2 = false →
      execute_external fs path status ws2 = ExtResult.invalidPipe := by
  have hr : is_redirect ws = true := by
    cases ws with
    | nil => simp [program_of] at hp
    | cons w0 rest =>
      have hd : decide (num_pipes (w0 :: rest) ≠ 0) = true := by simpa using hpipe
      simp [is_redirect, hd]
  refine ⟨builtin_redirect fs path status gm fuel ws prog hp hb hr, ?_⟩
  intro ws2 h2
  simp [execute_external, h2]

/-- Witness for C6 at the concrete piped line `cd | x`. -/
theorem claim_C6_witness :
    program_of ["cd", "|", "x"] = some "cd" ∧
    num_pipes ["cd", "|", "x"] ≠ 0 ∧
    execute_command fs0 [] st0 gm0 0 ["cd", "|", "x"] =
      Outcome.redirectError "cd" := by
  refine ⟨by decide, by decide, ?_⟩
  exact (claim_C6 fs0 [] st0 gm0 0 ["cd", "|", "x"] "cd"
    (by decide) (by decide) (by decide)).1

/-- Counterexample for C6 as stated: the malformed pipeline `cd | | x`
targets the builtin `cd`, yet the shell emits the builtin-redirection
error, not the invalid-pipe rejection, because `valid_pipe` runs only
after builtin dispatch, inside `execute_external`. -/
theorem claim_C6_counterexample :
    valid_pipe ["cd", "|", "|", "x"] = false ∧
    execute_command fs0 [] st0 gm0 0 ["cd", "|", "|", "x"] =
      Outcome.redirectError "cd" ∧
    Outcome.redirectError "cd" ≠ Outcome.ranExternal ExtResult.invalidPipe := by
  exact ⟨by decide, by decide, by decide⟩

/-- C1: for a well-formed pipeline of `N ≥ 2` stages (`N-1` pipe tokens)
that runs to completion, `execute_external` creates exactly `N-1`
connecting pipes, launches all `N` stages, waits only on the handle of
stage `N-1`, and reports exactly the last stage's resolved program path
and its exit status; the statuses of earlier stages are never read — the
whole result is unchanged under any status oracle that agrees on stage
`N-1` alone. -/
theorem claim_C1 (fs : Fs) (path : List String) (status : Nat → Nat)
    (ws : List String) (N : Nat) (hN : 2 ≤ N)
    (hval : valid_pipe ws = true) (hpipes : num_pipes ws = N - 1)
    (p : Nat) (l : List Launch) (w : Nat) (rp : String) (rs : Nat)
    (hrun : execute_external fs path status ws = ExtResult.finished p l w rp rs) :
    p = N - 1 ∧ l.length = N ∧ w = N - 1 ∧
    (∃ a, l.getLast? = some ⟨rp, a⟩) ∧ rs = status (N - 1) ∧
    (∀ status' : Nat → Nat, status' (N - 1) = status (N - 1) →
      execute_external fs path status' ws = ExtResult.finished p l w rp rs) := by
  rw [execute_external, if_pos hval] at hrun
  obtain ⟨hp, hl, hw, hrs, hrp⟩ := run_stages_finished fs path status (num_pipes ws)
    (split_stages ws) 0 [] p l w rp rs hrun
  rw [hpipes] at hp
  rw [split_stages_length, hpipes] at hl
  have hlen : l.length = N := by simp at hl; omega
  have hwN : w = N - 1 := by omega
  refine ⟨hp, hlen, hwN, hrp, by rw [hrs, hlen], ?_⟩
  intro status' hst
  rw [execute_external, if_pos hval]
  refine run_stages_status_frame fs path status status' (num_pipes ws)
    (split_stages ws) 0 [] p l w rp rs hrun ?_
  rw [hwN, hst]

/-- Witness for C1: the two-stage pipeline `a | b` over a filesystem
holding executables `/bin/a` and `/bin/b`. -/
theorem claim_C1_witness :
    valid_pipe ["a", "|", "b"] = true ∧
    num_pipes ["a", "|", "b"] = 2 - 1 ∧
    execute_external fsBin ["/bin"] st0 ["a", "|", "b"] =
      ExtResult.finished 1 [⟨"/bin/a", ["a"]⟩, ⟨"/bin/b", ["b"]⟩] 1 "/bin/b" 0 ∧
    ([⟨"/bin/a", ["a"]⟩, ⟨"/bin/b", ["b"]⟩] : List Launch).length = 2 := by
  have hrun : execute_external fsBin ["/bin"] st0 ["a", "|", "b"] =
      ExtResult.finished 1 [⟨"/bin/a", ["a"]⟩, ⟨"/bin/b", ["b"]⟩] 1 "/bin/b" 0 := by
    decide
  refine ⟨by decide, by decide, hrun, ?_⟩
  exact (claim_C1 fsBin ["/bin"] st0 ["a", "|", "b"] 2 (by omega) (by decide)
    (by decide) 1 _ 1 "/bin/b" 0 hrun).2.1

/-- C4 (corrected): for a stage program name without a path separator, the
launcher resolves it to the first `search_path` entry in which a file of
that name merely exists (`access(F_OK)`, executability not consulted
during the search); if no entry has such a file it reports command not
found naming the program, and if the resolved path is not a regular
executable file it reports command not found naming that resolved path —
in both cases `execute_external` returns at once, launching no further
stage of the line. -/
theorem claim_C4 (fs : Fs) (path : List String) (prog : String)
    (hns : contains_char prog '/' = false) :
    (∀ pre d post, path = pre ++ d :: post →
        (∀ e ∈ pre, fs.present (e ++ "/" ++ prog) = false) →
        fs.present (d ++ "/" ++ prog) = true →
        get_full_path fs path prog = some (d ++ "/" ++ prog)) ∧
    ((∀ d ∈ path, fs.present (d ++ "/" ++ prog) = false) →
        get_full_path fs path prog = none) ∧
    (∀ (status : Nat → Nat) (pn i : Nat) (acc : List Launch) (sw : List String)
        (rest : List (List String)),
        (stage_argv pn i sw).head? = some prog →
        (get_full_path fs path prog = none →
          run_stages fs path status pn (sw :: rest) i acc =
            ExtResult.commandNotFound pn acc prog) ∧
        (∀ fp, get_full_path fs path prog = some fp → is_executable fs fp = false →
          run_stages fs path status pn (sw :: rest) i acc =
            ExtResult.commandNotFound pn acc fp)) := by
  refine ⟨?_, ?_, ?_⟩
  · intro pre d post hsplit hpre hd
    subst hsplit
    rw [get_full_path, find?_first_present _ pre d post hpre hd]
    rfl
  · intro hall
    rw [get_full_path, List.find?_eq_none.mpr (fun d hd => by simp [hall d hd])]
    rfl
  · intro status pn i acc sw rest hhd
    constructor
    · intro hn
      simp only [run_stages, hhd, hns, Bool.false_eq_true, if_false, hn]
    · intro fp hs hex
      simp only [run_stages, hhd, hns, Bool.false_eq_true, if_false, hs, hex]

/-- Witness for C4: the program `nosuch` over an empty filesystem is not
resolved and the stage run aborts with command not found naming it. -/
theorem claim_C4_witness :
    contains_char "nosuch" '/' = false ∧
    get_full_path fs0 ["/bin"] "nosuch" = none ∧
    run_stages fs0 ["/bin"] st0 0 [["nosuch"]] 0 [] =
      ExtResult.commandNotFound 0 [] "nosuch" := by
  have h := claim_C4 fs0 ["/bin"] "nosuch" (by decide)
  have hn : get_full_path fs0 ["/bin"] "nosuch" = none :=
    h.2.1 (fun d _ => rfl)
  exact ⟨by decide, hn, (h.2.2 st0 0 0 [] ["nosuch"] [] (by decide)).1 hn⟩

/-- Counterexample for C4 as stated: with `/d1/p` existing but not
executable and `/d2/p` a regular executable file, the search stops at the
first entry where the file exists (`/d1/p`), not the first entry with a
regular executable file (`/d2/p`), and the pipeline is then aborted with
command not found even though an executable match exists later in the
path. -/
theorem claim_C4_counterexample :
    is_executable fs4 ("/d2" ++ "/" ++ "p") = true ∧
    resolve_spec fs4 ["/d1", "/d2"] "p" = some "/d2/p" ∧
    get_full_path fs4 ["/d1", "/d2"] "p" = some "/d1/p" ∧
    execute_external fs4 ["/d1", "/d2"] st0 ["p"] =
      ExtResult.commandNotFound 0 [] "/d1/p" := by
  exact ⟨by decide, by decide, by decide, by decide⟩

/-- C10 (code bug): for a line whose first word carries `<` and which has
at most two words — such as `<` alone, or `< file` — `execute_command`
leaves `program` NULL and passes it to `strcmp` when comparing against
the builtin names: the comparison is reached with no program name
determined (undefined behaviour, a crash in practice). -/
theorem claim_C10 :
    program_of ["<"] = none ∧ program_of ["<", "file"] = none ∧
    execute_command fs0 [] st0 gm0 0 ["<"] = Outcome.nullProgram ∧
    execute_command fs0 [] st0 gm0 0 ["<", "file"] = Outcome.nullProgram := by
  exact ⟨rfl, rfl, rfl, rfl⟩

end Jsh
